import Mathlib

/-!
Shallow embedding of the tool-use orchestration loop of
`src/mcpclient/mcp_chatbot_deepseek.py` (`MCPClient.process_query`) and of
`src/mcpclient/mcp_chatbot_ollama.py` (`MCPClient.process_query`).

External effects (the completion API, `session.list_tools`,
`session.call_tool`, `json.loads`) are modelled as oracles carried by an
environment record; the loop itself is translated statement by statement.
Debug `print` calls that carry no control flow are modelled as recorded
notices where a claim refers to them, and dropped otherwise.
-/

namespace Mcp

/-- Argument map passed to `call_tool`: a JSON object modelled as a finite
key/value association list, values kept as opaque text. -/
abbrev ArgMap := List (String × String)

/-- One tool-call request as carried by a completion response:
`tool_call.id`, `tool_call.function.name`, `tool_call.function.arguments`
(raw JSON text). -/
structure ToolCallRequest where
  id : String
  name : String
  arguments : String
deriving DecidableEq

/-- One tool as listed by `session.list_tools()`. -/
structure ToolDescriptor where
  name : String
  description : String
  inputSchema : String
deriving DecidableEq

/-- Conversation message dictionaries built by `process_query`. -/
inductive Message where
  | system (content : String)
  | user (content : String)
  | assistant (content : String) (tool_calls : List ToolCallRequest)
  | tool (name : String) (content : String) (tool_call_id : String)
deriving DecidableEq

/-- The `finish_reason` field of a completion choice. -/
inductive FinishReason where
  | stop
  | tool_calls
  | other (s : String)
deriving DecidableEq

/-- The `message` field of a completion choice: its text content and its
(possibly empty) list of tool calls. -/
structure CompletionMessage where
  content : String
  tool_calls : List ToolCallRequest
deriving DecidableEq

/-- One completion choice: `choice.finish_reason` and `choice.message`. -/
structure CompletionResponse where
  finish_reason : FinishReason
  message : CompletionMessage
deriving DecidableEq

/-- One entry of the `tools=` list sent to the completion API
(`{type: "function", function: {name, description, parameters}}`). -/
structure FunctionDecl where
  name : String
  description : String
  parameters : String
deriving DecidableEq

/-- Build of one `available_tools` entry from a listed tool. -/
def toFunctionDecl (t : ToolDescriptor) : FunctionDecl :=
  { name := t.name, description := t.description, parameters := t.inputSchema }

/-- One request to `client.chat.completions.create`, with the arguments the
deepseek variant passes: `model`, `messages`, `tools`, `tool_choice`. -/
structure CompletionRequest where
  model : String
  messages : List Message
  tools : List FunctionDecl
  tool_choice : String
deriving DecidableEq

/-- Outcome of one `await session.call_tool(...)`: either it returns a result
object (whose `str()` rendering is `printed`, and which may carry a
tool-reported error flag), or it raises with message `message`;
`transportBroken` marks whether a raise came from the transport to the tool
host. The source inspects neither flag. -/
inductive ToolOutcome where
  | ok (printed : String) (isError : Bool)
  | exn (message : String) (transportBroken : Bool)
deriving DecidableEq

/-- Trace record of one dispatched tool invocation: the name and the parsed
argument map handed to `call_tool`. -/
structure ToolInvocation where
  name : String
  args : ArgMap
deriving DecidableEq

/-- Oracle for the external world: the catalog returned by the n-th
`list_tools` call, the response of the n-th completion-API call, the outcome
of the n-th `call_tool` invocation, and the behaviour of `json.loads` on raw
argument text. -/
structure Env where
  catalogs : Nat → List ToolDescriptor
  completions : Nat → CompletionResponse
  toolResults : Nat → ToolOutcome
  parseJson : String → Option ArgMap

/-- State threaded through one `process_query` execution: the `messages`
list plus trace counters for the external calls made so far. -/
structure LoopState where
  messages : List Message
  completionCalls : Nat
  completionRequests : List CompletionRequest
  listToolsCalls : Nat
  toolInvocations : List ToolInvocation
  parseErrors : List String
deriving DecidableEq

/-- System prompt installed at the top of `messages` (identical text in both
variants). -/
def systemPrompt : String :=
  "You are an autonomous Kubernetes assistant. When asked to perform actions, automatically execute the necessary tools without asking for confirmation. Only ask for clarification if the request is ambiguous or missing required parameters."

/-- Initial `messages` plus zeroed call counters, as set up at the top of
`process_query`. -/
def initState (query : String) : LoopState :=
  { messages := [Message.system systemPrompt, Message.user query]
    completionCalls := 0
    completionRequests := []
    listToolsCalls := 0
    toolInvocations := []
    parseErrors := [] }

/-- Notice printed when `json.loads(tool_call.function.arguments)` raises. -/
def parseErrorNotice : String := "Error parsing tool arguments"

/-- Effect of the `json.loads` try/except block on the recorded notices:
a parse failure appends the parse-error notice, success records nothing. -/
def recordParse (env : Env) (st : LoopState) (tc : ToolCallRequest) : LoopState :=
  match env.parseJson tc.arguments with
  | some _ => st
  | none => { st with parseErrors := st.parseErrors ++ [parseErrorNotice] }

/-- Argument map handed to `call_tool`: the parse result, or the empty map
when `json.loads` raised. -/
def parsedArgs (env : Env) (tc : ToolCallRequest) : ArgMap :=
  (env.parseJson tc.arguments).getD []

/-- Body of the `for tool_call in message.tool_calls` loop for one
tool call: parse the arguments (empty-map fallback), dispatch `call_tool`;
on a normal return append the assistant message recording the request and
the tool-role message recording the result; on a raise return the
`"Error executing ..."` string (second component `some`). -/
def processToolCall (env : Env) (st : LoopState) (tc : ToolCallRequest) :
    LoopState × Option String :=
  let st1 := recordParse env st tc
  let st2 := { st1 with
    toolInvocations := st1.toolInvocations ++ [⟨tc.name, parsedArgs env tc⟩] }
  match env.toolResults st.toolInvocations.length with
  | ToolOutcome.ok printed _ =>
      ({ st2 with messages := st2.messages ++
          [Message.assistant "" [tc], Message.tool tc.name printed tc.id] }, none)
  | ToolOutcome.exn m _ =>
      (st2, some ("Error executing " ++ tc.name ++ ": " ++ m))

/-- Sequential processing of one batch of tool calls; stops early with the
error string when a dispatch raises. -/
def runBatch (env : Env) : LoopState → List ToolCallRequest → LoopState × Option String
  | st, [] => (st, none)
  | st, tc :: rest =>
      match processToolCall env st tc with
      | (st2, none) => runBatch env st2 rest
      | (st2, some s) => (st2, some s)

/-- Result of one iteration of the `for _ in range(max_iterations)` loop:
either `process_query` returns `answer` from inside the iteration, or the
loop continues with the updated state. -/
inductive StepResult where
  | done (answer : String) (st : LoopState)
  | next (st : LoopState)

/-- State carried by a step result. -/
def StepResult.state : StepResult → LoopState
  | StepResult.done _ st => st
  | StepResult.next st => st

/-- The per-iteration `await self.session.list_tools()` call: returns the
fresh catalog and bumps the list_tools counter; `messages` is untouched. -/
def refreshCatalog (env : Env) (st : LoopState) : LoopState × List ToolDescriptor :=
  ({ st with listToolsCalls := st.listToolsCalls + 1 }, env.catalogs st.listToolsCalls)

/-- The `for tool_call in message.tool_calls` loop followed by the decision
to continue the outer loop: a completed batch continues, a raise returns
the error string from inside the iteration. -/
def batchStep (env : Env) (st2 : LoopState) (batch : List ToolCallRequest) : StepResult :=
  match runBatch env st2 batch with
  | (st3, none) => StepResult.next st3
  | (st3, some s) => StepResult.done s st3

/-- One iteration of the loop body of the deepseek `process_query`:
refresh the catalog, issue the completion call, then branch on
`choice.finish_reason == "tool_calls" and message.tool_calls`. -/
def iterationStep (model : String) (env : Env) (st : LoopState) : StepResult :=
  let rc := refreshCatalog env st
  let availableTools := rc.2.map toFunctionDecl
  let st2 := { rc.1 with
    completionCalls := rc.1.completionCalls + 1
    completionRequests := rc.1.completionRequests ++
      [{ model := model, messages := rc.1.messages, tools := availableTools,
         tool_choice := "auto" }] }
  let resp := env.completions rc.1.completionCalls
  match resp.finish_reason, resp.message.tool_calls with
  | FinishReason.tool_calls, tc :: rest => batchStep env st2 (tc :: rest)
  | _, _ => StepResult.done resp.message.content st2

/-- The state right after the per-iteration `list_tools` refresh and the
completion-API call have been recorded (definitionally the intermediate
state built inside `iterationStep`). -/
def afterCompletion (model : String) (env : Env) (st : LoopState) : LoopState :=
  { st with
    listToolsCalls := st.listToolsCalls + 1
    completionCalls := st.completionCalls + 1
    completionRequests := st.completionRequests ++
      [{ model := model, messages := st.messages,
         tools := (env.catalogs st.listToolsCalls).map toFunctionDecl,
         tool_choice := "auto" }] }

/-- Sentinel returned when the loop runs out of iterations. -/
def exhaustedSentinel : String :=
  "Maximum iterations reached without completing the request"

/-- The `for _ in range(fuel)` loop around `iterationStep`, falling through
to the exhaustion sentinel. -/
def runLoop (model : String) (env : Env) : Nat → LoopState → String × LoopState
  | 0, st => (exhaustedSentinel, st)
  | n + 1, st =>
      match iterationStep model env st with
      | StepResult.done s st2 => (s, st2)
      | StepResult.next st2 => runLoop model env n st2

/-- The iteration budget: `max_iterations = 10`. -/
def maxIterations : Nat := 10

/-- The deepseek `process_query(query)`: run the bounded loop from the fresh
system+user message list; returns the answer string and the final traced
state. -/
def processQuery (model : String) (env : Env) (query : String) : String × LoopState :=
  runLoop model env maxIterations (initState query)

/-- One tool call as delivered by the ollama API: an optional `id` (the
code falls back to `"unknown"`), `function.name`, and `function.arguments`,
which ollama delivers as an already-structured map; a missing `arguments`
key raises `KeyError` in the source. -/
structure OllamaToolCall where
  id : Option String
  name : String
  arguments : Option ArgMap
deriving DecidableEq

/-- Conversation message dictionaries built by the ollama `process_query`. -/
inductive OMessage where
  | system (content : String)
  | user (content : String)
  | assistant (content : String) (tool_calls : List OllamaToolCall)
  | tool (name : String) (content : String) (tool_call_id : String)
deriving DecidableEq

/-- The `response["message"]` value of one `ollama.chat` call; `tool_calls`
is `none` when the key is absent. -/
structure OllamaResponseMessage where
  content : String
  tool_calls : Option (List OllamaToolCall)
deriving DecidableEq

/-- Outcome of one `ollama.chat(...)` call: a message, or a raised
`requests.RequestException`. -/
inductive OllamaChatOutcome where
  | ok (message : OllamaResponseMessage)
  | requestError (m : String)

/-- One request to `ollama.chat`, with the arguments the source passes:
`model`, `messages`, `tools`. -/
structure OllamaRequest where
  model : String
  messages : List OMessage
  tools : List FunctionDecl
deriving DecidableEq

/-- Oracle for the ollama variant's external world. -/
structure OEnv where
  catalogs : Nat → List ToolDescriptor
  chats : Nat → OllamaChatOutcome
  toolResults : Nat → ToolOutcome

/-- State threaded through one ollama `process_query` execution. -/
structure OState where
  messages : List OMessage
  chatCalls : Nat
  requests : List OllamaRequest
  listToolsCalls : Nat
  toolInvocations : List ToolInvocation
  invalidFormatNotices : List String
deriving DecidableEq

/-- Initial ollama state: same system prompt plus the user query. -/
def oInitState (query : String) : OState :=
  { messages := [OMessage.system systemPrompt, OMessage.user query]
    chatCalls := 0
    requests := []
    listToolsCalls := 0
    toolInvocations := []
    invalidFormatNotices := [] }

/-- Body of the ollama `for tool_call in message["tool_calls"]` loop for one
tool call: read `function.arguments` (empty-map fallback on `KeyError` with
a printed notice), dispatch `call_tool`; on a normal return append the
assistant and tool-role messages; on a raise return the error string. -/
def oProcessToolCall (env : OEnv) (st : OState) (tc : OllamaToolCall) :
    OState × Option String :=
  let st1 :=
    match tc.arguments with
    | some _ => st
    | none => { st with invalidFormatNotices := st.invalidFormatNotices ++
        ["Error: Invalid tool call format for " ++ tc.name] }
  let st2 := { st1 with
    toolInvocations := st1.toolInvocations ++ [⟨tc.name, tc.arguments.getD []⟩] }
  match env.toolResults st.toolInvocations.length with
  | ToolOutcome.ok printed _ =>
      ({ st2 with messages := st2.messages ++
          [OMessage.assistant "" [tc],
           OMessage.tool tc.name printed (tc.id.getD "unknown")] }, none)
  | ToolOutcome.exn m _ =>
      (st2, some ("Error executing " ++ tc.name ++ ": " ++ m))

/-- Sequential processing of one ollama batch of tool calls. -/
def oRunBatch (env : OEnv) : OState → List OllamaToolCall → OState × Option String
  | st, [] => (st, none)
  | st, tc :: rest =>
      match oProcessToolCall env st tc with
      | (st2, none) => oRunBatch env st2 rest
      | (st2, some s) => (st2, some s)

/-- Result of one iteration of the ollama loop. -/
inductive OStepResult where
  | done (answer : String) (st : OState)
  | next (st : OState)

/-- State carried by an ollama step result. -/
def OStepResult.state : OStepResult → OState
  | OStepResult.done _ st => st
  | OStepResult.next st => st

/-- The ollama batch loop followed by the decision to continue the outer
loop. -/
def oBatchStep (env : OEnv) (st2 : OState) (batch : List OllamaToolCall) : OStepResult :=
  match oRunBatch env st2 batch with
  | (st3, none) => OStepResult.next st3
  | (st3, some s) => OStepResult.done s st3

/-- One iteration of the ollama `process_query` loop body: refresh the
catalog, call `ollama.chat(model="llama3.1", messages=..., tools=...)`
(note the hardcoded model string), then branch on
`"tool_calls" in message and message["tool_calls"]`; a raised
`requests.RequestException` returns the `"Error calling Ollama API: ..."`
string. -/
def oIterationStep (env : OEnv) (st : OState) : OStepResult :=
  let tools := env.catalogs st.listToolsCalls
  let st1 := { st with listToolsCalls := st.listToolsCalls + 1 }
  let availableTools := tools.map toFunctionDecl
  let st2 := { st1 with
    chatCalls := st1.chatCalls + 1
    requests := st1.requests ++
      [{ model := "llama3.1", messages := st1.messages, tools := availableTools }] }
  match env.chats st1.chatCalls with
  | OllamaChatOutcome.requestError m =>
      OStepResult.done ("Error calling Ollama API: " ++ m) st2
  | OllamaChatOutcome.ok msg =>
      match msg.tool_calls with
      | some (tc :: rest) => oBatchStep env st2 (tc :: rest)
      | _ => OStepResult.done msg.content st2

/-- The bounded ollama loop (same sentinel text as the deepseek variant). -/
def oRunLoop (env : OEnv) : Nat → OState → String × OState
  | 0, st => (exhaustedSentinel, st)
  | n + 1, st =>
      match oIterationStep env st with
      | OStepResult.done s st2 => (s, st2)
      | OStepResult.next st2 => oRunLoop env n st2

/-- The ollama `process_query(query)`. `configModel` is the value read from
the MODEL environment variable into `self.model` in `__init__`; the loop
body never consults it (it hardcodes `"llama3.1"`), which is exactly what
claim C10 is about. -/
def oProcessQuery (configModel : String) (env : OEnv) (query : String) :
    String × OState :=
  oRunLoop env maxIterations (oInitState query)

/-- The text a tool outcome contributes: `str(result)` for a return, the
exception text for a raise. -/
def resultText : ToolOutcome → String
  | ToolOutcome.ok printed _ => printed
  | ToolOutcome.exn m _ => m

/-- Messages appended while a batch starting at global invocation index
`base` is processed to completion: one assistant/tool pair per request. -/
def batchMessages (env : Env) : Nat → List ToolCallRequest → List Message
  | _, [] => []
  | base, tc :: rest =>
      Message.assistant "" [tc] ::
      Message.tool tc.name (resultText (env.toolResults base)) tc.id ::
      batchMessages env (base + 1) rest

/-- Shape invariant of the `messages` list: the initial system+user pair
followed by adjacent assistant/tool pairs in which the assistant message
carries exactly one tool-call request and the tool message answers it by
`tool_call_id`. -/
inductive WellLinked : List Message → Prop where
  | base (p u : String) : WellLinked [Message.system p, Message.user u]
  | extend (l : List Message) (c n r : String) (tc : ToolCallRequest) :
      WellLinked l →
      WellLinked (l ++ [Message.assistant c [tc], Message.tool n r tc.id])

/-- Claim-level linkage property: no tool-role message opens the log, and
every tool-role message's `tool_call_id` equals the `id` of some request in
the immediately preceding assistant message. -/
def ToolMsgLinked (l : List Message) : Prop :=
  (∀ n c tid, l[0]? ≠ some (Message.tool n c tid)) ∧
  (∀ i n c tid, l[i + 1]? = some (Message.tool n c tid) →
    ∃ ac tcs, l[i]? = some (Message.assistant ac tcs) ∧
      ∃ tc, tc ∈ tcs ∧ tc.id = tid)

/-- Claim-level answering property: every assistant message in the log
carries exactly one tool-call request and is immediately followed by
exactly one tool-role message answering it. -/
def AssistantAnswered (l : List Message) : Prop :=
  ∀ i c tcs, l[i]? = some (Message.assistant c tcs) →
    ∃ tc, tcs = [tc] ∧ ∃ n r, l[i + 1]? = some (Message.tool n r tc.id)

/-- Log `l2` extends log `l1` by appending only. -/
def LogExtends (l1 l2 : List Message) : Prop := ∃ t, l2 = l1 ++ t

/-- Sample tool-call request (id `c1`, tool `t1`). -/
def tcA : ToolCallRequest := { id := "c1", name := "t1", arguments := "{}" }

/-- Sample tool-call request (id `c2`, tool `t2`). -/
def tcB : ToolCallRequest := { id := "c2", name := "t2", arguments := "{}" }

/-- Environment for the C1 counterexample: the first completion response
requests one tool call and its invocation raises a non-transport failure. -/
def cexEnvC1 : Env :=
  { catalogs := fun _ => []
    completions := fun _ => ⟨FinishReason.tool_calls, ⟨"", [tcA]⟩⟩
    toolResults := fun _ => ToolOutcome.exn "boom" false
    parseJson := fun _ => some [] }

/-- Environment for the C1 amended-claim witness, result-reported-failure
side: the invocation returns a result flagged `is_error`. -/
def wEnvC1a : Env :=
  { catalogs := fun _ => []
    completions := fun _ => ⟨FinishReason.tool_calls, ⟨"", [tcA, tcB]⟩⟩
    toolResults := fun _ => ToolOutcome.ok "tool reported failure" true
    parseJson := fun _ => some [] }

/-- Environment for the C1 amended-claim witness, raising side. -/
def wEnvC1b : Env :=
  { catalogs := fun _ => []
    completions := fun _ => ⟨FinishReason.tool_calls, ⟨"", [tcA]⟩⟩
    toolResults := fun _ => ToolOutcome.exn "boom" false
    parseJson := fun _ => some [] }

/-- Environment for the C2 counterexample: a batch of two requests whose
first invocation raises a non-transport failure. -/
def cexEnvC2 : Env :=
  { catalogs := fun _ => []
    completions := fun _ => ⟨FinishReason.tool_calls, ⟨"", [tcA, tcB]⟩⟩
    toolResults := fun _ => ToolOutcome.exn "boom" false
    parseJson := fun _ => some [] }

/-- Environment for the C2 amended-claim witness: a batch of two requests,
both invocations returning normally. -/
def wEnvC2 : Env :=
  { catalogs := fun _ => []
    completions := fun _ => ⟨FinishReason.tool_calls, ⟨"", [tcA, tcB]⟩⟩
    toolResults := fun _ => ToolOutcome.ok "out" false
    parseJson := fun _ => some [] }

/-- Environment for the C4 witness: every completion response requests one
tool call and every invocation returns normally, so the budget runs out. -/
def wEnvC4 : Env :=
  { catalogs := fun _ => []
    completions := fun _ => ⟨FinishReason.tool_calls, ⟨"", [tcA]⟩⟩
    toolResults := fun _ => ToolOutcome.ok "out" false
    parseJson := fun _ => some [] }

/-- Environment for the C6 witness: the first completion response finishes
with `stop`. -/
def wEnvC6 : Env :=
  { catalogs := fun _ => []
    completions := fun _ => ⟨FinishReason.stop, ⟨"final answer", []⟩⟩
    toolResults := fun _ => ToolOutcome.ok "out" false
    parseJson := fun _ => some [] }

/-- Environment for the C7 witness: `json.loads` fails on every raw
argument text, invocations return normally. -/
def wEnvC7 : Env :=
  { catalogs := fun _ => []
    completions := fun _ => ⟨FinishReason.tool_calls, ⟨"", [tcA]⟩⟩
    toolResults := fun _ => ToolOutcome.ok "out" false
    parseJson := fun _ => none }

/-- Environment for the C8 witness: a batch of two requests; the first
invocation succeeds, the second raises a transport-level failure. -/
def wEnvC8 : Env :=
  { catalogs := fun _ => []
    completions := fun _ => ⟨FinishReason.tool_calls, ⟨"", [tcA, tcB]⟩⟩
    toolResults := fun k =>
      if k = 0 then ToolOutcome.ok "fine" false else ToolOutcome.exn "host gone" true
    parseJson := fun _ => some [] }

/-- recordParse can only touch the parse-error notices. -/
theorem recordParse_messages (env : Env) (st : LoopState) (tc : ToolCallRequest) :
    (recordParse env st tc).messages = st.messages := by
  unfold recordParse; cases env.parseJson tc.arguments <;> rfl

/-- recordParse preserves the completion-call counter. -/
theorem recordParse_completionCalls (env : Env) (st : LoopState) (tc : ToolCallRequest) :
    (recordParse env st tc).completionCalls = st.completionCalls := by
  unfold recordParse; cases env.parseJson tc.arguments <;> rfl

/-- recordParse preserves the completion-request trace. -/
theorem recordParse_completionRequests (env : Env) (st : LoopState) (tc : ToolCallRequest) :
    (recordParse env st tc).completionRequests = st.completionRequests := by
  unfold recordParse; cases env.parseJson tc.arguments <;> rfl

/-- recordParse preserves the list_tools counter. -/
theorem recordParse_listToolsCalls (env : Env) (st : LoopState) (tc : ToolCallRequest) :
    (recordParse env st tc).listToolsCalls = st.listToolsCalls := by
  unfold recordParse; cases env.parseJson tc.arguments <;> rfl

/-- recordParse preserves the invocation trace. -/
theorem recordParse_toolInvocations (env : Env) (st : LoopState) (tc : ToolCallRequest) :
    (recordParse env st tc).toolInvocations = st.toolInvocations := by
  unfold recordParse; cases env.parseJson tc.arguments <;> rfl

/-- Characterization of one tool-call dispatch whose `call_tool` returns
normally: the invocation is traced, the assistant/tool message pair is
appended, and no early return is produced. -/
theorem processToolCall_ok (env : Env) (st : LoopState) (tc : ToolCallRequest)
    (printed : String) (e : Bool)
    (h : env.toolResults st.toolInvocations.length = ToolOutcome.ok printed e) :
    processToolCall env st tc =
      ({ recordParse env st tc with
          toolInvocations := st.toolInvocations ++ [⟨tc.name, parsedArgs env tc⟩]
          messages := st.messages ++
            [Message.assistant "" [tc], Message.tool tc.name printed tc.id] },
        none) := by
  unfold processToolCall
  rw [h]
  simp [recordParse_messages, recordParse_toolInvocations]

/-- Characterization of one tool-call dispatch whose `call_tool` raises:
the invocation is traced, `messages` is untouched, and the
`"Error executing ..."` string is returned. -/
theorem processToolCall_exn (env : Env) (st : LoopState) (tc : ToolCallRequest)
    (m : String) (b : Bool)
    (h : env.toolResults st.toolInvocations.length = ToolOutcome.exn m b) :
    processToolCall env st tc =
      ({ recordParse env st tc with
          toolInvocations := st.toolInvocations ++ [⟨tc.name, parsedArgs env tc⟩] },
        some ("Error executing " ++ tc.name ++ ": " ++ m)) := by
  unfold processToolCall
  rw [h]
  simp [recordParse_toolInvocations]

/-- One dispatch never touches the completion or list_tools counters and
always traces exactly its own invocation. -/
theorem processToolCall_counters (env : Env) (st : LoopState) (tc : ToolCallRequest) :
    (processToolCall env st tc).1.completionCalls = st.completionCalls ∧
    (processToolCall env st tc).1.completionRequests = st.completionRequests ∧
    (processToolCall env st tc).1.listToolsCalls = st.listToolsCalls ∧
    (processToolCall env st tc).1.toolInvocations =
      st.toolInvocations ++ [⟨tc.name, parsedArgs env tc⟩] := by
  cases h : env.toolResults st.toolInvocations.length with
  | ok printed e =>
      rw [processToolCall_ok env st tc printed e h]
      simp [recordParse_completionCalls, recordParse_completionRequests,
        recordParse_listToolsCalls]
  | exn m b =>
      rw [processToolCall_exn env st tc m b h]
      simp [recordParse_completionCalls, recordParse_completionRequests,
        recordParse_listToolsCalls]

/-- One dispatch only ever appends to `messages`. -/
theorem processToolCall_messages (env : Env) (st : LoopState) (tc : ToolCallRequest) :
    ∃ t, (processToolCall env st tc).1.messages = st.messages ++ t := by
  cases h : env.toolResults st.toolInvocations.length with
  | ok printed e =>
      rw [processToolCall_ok env st tc printed e h]
      exact ⟨_, rfl⟩
  | exn m b =>
      rw [processToolCall_exn env st tc m b h]
      exact ⟨[], by simp [recordParse_messages]⟩

/-- Batch processing never touches the completion or list_tools counters. -/
theorem runBatch_counters (env : Env) (tcs : List ToolCallRequest) :
    ∀ st : LoopState,
      (runBatch env st tcs).1.completionCalls = st.completionCalls ∧
      (runBatch env st tcs).1.completionRequests = st.completionRequests ∧
      (runBatch env st tcs).1.listToolsCalls = st.listToolsCalls := by
  induction tcs with
  | nil => intro st; exact ⟨rfl, rfl, rfl⟩
  | cons tc rest ih =>
      intro st
      obtain ⟨h1, h2, h3, _⟩ := processToolCall_counters env st tc
      unfold runBatch
      cases hp : processToolCall env st tc with
      | mk st2 r =>
        rw [hp] at h1 h2 h3
        cases r with
        | none =>
            obtain ⟨g1, g2, g3⟩ := ih st2
            exact ⟨g1.trans h1, g2.trans h2, g3.trans h3⟩
        | some s => exact ⟨h1, h2, h3⟩

/-- Batch processing only ever appends to `messages`. -/
theorem runBatch_messages (env : Env) (tcs : List ToolCallRequest) :
    ∀ st : LoopState, ∃ t, (runBatch env st tcs).1.messages = st.messages ++ t := by
  induction tcs with
  | nil => intro st; exact ⟨[], by simp [runBatch]⟩
  | cons tc rest ih =>
      intro st
      obtain ⟨t1, h1⟩ := processToolCall_messages env st tc
      unfold runBatch
      cases hp : processToolCall env st tc with
      | mk st2 r =>
        rw [hp] at h1
        cases r with
        | none =>
            obtain ⟨t2, h2⟩ := ih st2
            exact ⟨t1 ++ t2, by rw [h2, h1, List.append_assoc]⟩
        | some s => exact ⟨t1, h1⟩

/-- Full characterization of a batch all of whose invocations return
normally: no early return, every request traced exactly once in order, and
the assistant/tool pairs appended in order. -/
theorem runBatch_ok (env : Env) (tcs : List ToolCallRequest) :
    ∀ st : LoopState,
      (∀ k, k < tcs.length →
        ∃ r e, env.toolResults (st.toolInvocations.length + k) = ToolOutcome.ok r e) →
      (runBatch env st tcs).2 = none ∧
      (runBatch env st tcs).1.toolInvocations =
        st.toolInvocations ++ tcs.map (fun tc => ⟨tc.name, parsedArgs env tc⟩) ∧
      (runBatch env st tcs).1.messages =
        st.messages ++ batchMessages env st.toolInvocations.length tcs := by
  induction tcs with
  | nil => intro st _; exact ⟨rfl, by simp [runBatch, batchMessages], by simp [runBatch, batchMessages]⟩
  | cons tc rest ih =>
      intro st hok
      obtain ⟨r, e, hres⟩ := hok 0 (Nat.succ_pos _)
      rw [Nat.add_zero] at hres
      have hchar := processToolCall_ok env st tc r e hres
      unfold runBatch
      rw [hchar]
      have hinv : ({ recordParse env st tc with
          toolInvocations := st.toolInvocations ++ [⟨tc.name, parsedArgs env tc⟩]
          messages := st.messages ++
            [Message.assistant "" [tc], Message.tool tc.name r tc.id] } :
          LoopState).toolInvocations.length = st.toolInvocations.length + 1 := by
        simp
      obtain ⟨g1, g2, g3⟩ := ih _ (by
        rw [hinv]
        intro k hk
        obtain ⟨r2, e2, hr2⟩ := hok (k + 1) (Nat.succ_lt_succ hk)
        exact ⟨r2, e2, by rw [← hr2]; ring_nf⟩)
      refine ⟨g1, ?_, ?_⟩
      · rw [g2]; simp
      · rw [g3]
        simp only [batchMessages, resultText, hres]
        simp [List.append_assoc]

/-- Characterization of a batch whose invocation of the request after `pre`
raises: the early error return is produced, no request after the raising
one is dispatched, and the completion counters are untouched. -/
theorem runBatch_abort (env : Env) (m : String) (b : Bool) (tc : ToolCallRequest)
    (post : List ToolCallRequest) :
    ∀ (pre : List ToolCallRequest) (st : LoopState),
      (∀ k, k < pre.length →
        ∃ r e, env.toolResults (st.toolInvocations.length + k) = ToolOutcome.ok r e) →
      env.toolResults (st.toolInvocations.length + pre.length) = ToolOutcome.exn m b →
      (runBatch env st (pre ++ tc :: post)).2 =
        some ("Error executing " ++ tc.name ++ ": " ++ m) ∧
      (runBatch env st (pre ++ tc :: post)).1.toolInvocations.length =
        st.toolInvocations.length + pre.length + 1 := by
  intro pre
  induction pre with
  | nil =>
      intro st _ hexn
      simp only [List.length_nil, Nat.add_zero] at hexn
      have hchar := processToolCall_exn env st tc m b hexn
      simp only [List.nil_append]
      unfold runBatch
      rw [hchar]
      exact ⟨rfl, by simp⟩
  | cons p rest ih =>
      intro st hok hexn
      obtain ⟨r, e, hres⟩ := hok 0 (Nat.succ_pos _)
      rw [Nat.add_zero] at hres
      have hchar := processToolCall_ok env st p r e hres
      simp only [List.cons_append]
      unfold runBatch
      rw [hchar]
      have hlen : ({ recordParse env st p with
          toolInvocations := st.toolInvocations ++ [⟨p.name, parsedArgs env p⟩]
          messages := st.messages ++
            [Message.assistant "" [p], Message.tool p.name r p.id] } :
          LoopState).toolInvocations.length = st.toolInvocations.length + 1 := by
        simp
      obtain ⟨g1, g2⟩ := ih _ (by
        rw [hlen]
        intro k hk
        obtain ⟨r2, e2, hr2⟩ := hok (k + 1) (Nat.succ_lt_succ hk)
        exact ⟨r2, e2, by rw [← hr2]; ring_nf⟩)
        (by rw [hlen, ← hexn]; simp [List.length_cons]; ring_nf)
      refine ⟨g1, ?_⟩
      rw [g2, hlen]
      simp [List.length_cons]
      ring_nf

/-- One dispatch preserves the pairing shape of `messages`. -/
theorem processToolCall_wellLinked (env : Env) (st : LoopState) (tc : ToolCallRequest)
    (h : WellLinked st.messages) :
    WellLinked (processToolCall env st tc).1.messages := by
  cases hres : env.toolResults st.toolInvocations.length with
  | ok printed e =>
      rw [processToolCall_ok env st tc printed e hres]
      exact WellLinked.extend _ _ _ _ _ h
  | exn m b =>
      rw [processToolCall_exn env st tc m b hres]
      simpa [recordParse_messages] using h

/-- Batch processing preserves the pairing shape of `messages`. -/
theorem runBatch_wellLinked (env : Env) (tcs : List ToolCallRequest) :
    ∀ st : LoopState, WellLinked st.messages →
      WellLinked (runBatch env st tcs).1.messages := by
  induction tcs with
  | nil => intro st h; exact h
  | cons tc rest ih =>
      intro st h
      have hw := processToolCall_wellLinked env st tc h
      unfold runBatch
      cases hp : processToolCall env st tc with
      | mk st2 r =>
        rw [hp] at hw
        cases r with
        | none => exact ih st2 hw
        | some s => exact hw

/-- The state inside a batch step is the state the batch produced, whether
or not the batch aborted. -/
theorem batchStep_state (env : Env) (st2 : LoopState) (batch : List ToolCallRequest) :
    (batchStep env st2 batch).state = (runBatch env st2 batch).1 := by
  unfold batchStep
  rcases runBatch env st2 batch with ⟨st3, r⟩
  cases r <;> rfl

/-- Per-iteration bookkeeping of the deepseek loop body: exactly one
completion call and one recorded completion request are added, `messages`
only grows, and the pairing shape is preserved. -/
theorem iterationStep_state (model : String) (env : Env) (st : LoopState) :
    (iterationStep model env st).state.completionCalls = st.completionCalls + 1 ∧
    (iterationStep model env st).state.completionRequests.length =
      st.completionRequests.length + 1 ∧
    LogExtends st.messages (iterationStep model env st).state.messages ∧
    (WellLinked st.messages → WellLinked (iterationStep model env st).state.messages) := by
  dsimp only [iterationStep, refreshCatalog]
  cases hfr : (env.completions st.completionCalls).finish_reason with
  | tool_calls =>
      cases htc : (env.completions st.completionCalls).message.tool_calls with
      | nil =>
          dsimp only [StepResult.state]
          exact ⟨rfl, by simp, ⟨[], by simp⟩, fun h => h⟩
      | cons tc rest =>
          rw [batchStep_state]
          obtain ⟨g1, g2, g3⟩ := runBatch_counters env (tc :: rest) _
          obtain ⟨t, gm⟩ := runBatch_messages env (tc :: rest) _
          refine ⟨?_, ?_, ?_, ?_⟩
          · rw [g1]
          · rw [g2]; simp
          · exact ⟨t, by rw [gm]⟩
          · intro h
            exact runBatch_wellLinked env (tc :: rest) _ h
  | stop =>
      dsimp only [StepResult.state]
      exact ⟨rfl, by simp, ⟨[], by simp⟩, fun h => h⟩
  | other s =>
      dsimp only [StepResult.state]
      exact ⟨rfl, by simp, ⟨[], by simp⟩, fun h => h⟩

/-- Transitivity of append-only extension. -/
theorem logExtends_trans {a b c : List Message} (h1 : LogExtends a b)
    (h2 : LogExtends b c) : LogExtends a c := by
  obtain ⟨t1, e1⟩ := h1
  obtain ⟨t2, e2⟩ := h2
  exact ⟨t1 ++ t2, by rw [e2, e1, List.append_assoc]⟩

/-- Unfolding of one loop iteration in terms of `afterCompletion`. -/
theorem iterationStep_eq (model : String) (env : Env) (st : LoopState) :
    iterationStep model env st =
      match (env.completions st.completionCalls).finish_reason,
            (env.completions st.completionCalls).message.tool_calls with
      | FinishReason.tool_calls, tc :: rest =>
          batchStep env (afterCompletion model env st) (tc :: rest)
      | _, _ => StepResult.done (env.completions st.completionCalls).message.content
          (afterCompletion model env st) := rfl

/-- A batch all of whose invocations return normally continues the loop. -/
theorem batchStep_ok (env : Env) (batch : List ToolCallRequest) (st2 : LoopState)
    (h : ∀ k, k < batch.length →
      ∃ r e, env.toolResults (st2.toolInvocations.length + k) = ToolOutcome.ok r e) :
    batchStep env st2 batch = StepResult.next (runBatch env st2 batch).1 := by
  have hnone := (runBatch_ok env batch st2 h).1
  unfold batchStep
  rcases hrb : runBatch env st2 batch with ⟨st3, r⟩
  rw [hrb] at hnone
  cases hnone
  rfl

/-- A batch that produced an early error return ends the query with it. -/
theorem batchStep_abort (env : Env) (batch : List ToolCallRequest) (st2 : LoopState)
    (s : String) (h : (runBatch env st2 batch).2 = some s) :
    batchStep env st2 batch = StepResult.done s (runBatch env st2 batch).1 := by
  unfold batchStep
  rcases hrb : runBatch env st2 batch with ⟨st3, r⟩
  rw [hrb] at h
  cases h
  rfl

/-- Whole-loop bookkeeping: at most one completion call per unit of fuel,
`messages` only grows, and the pairing shape is preserved. -/
theorem runLoop_state (model : String) (env : Env) :
    ∀ (fuel : Nat) (st : LoopState),
      (runLoop model env fuel st).2.completionCalls ≤ st.completionCalls + fuel ∧
      (runLoop model env fuel st).2.completionRequests.length ≤
        st.completionRequests.length + fuel ∧
      LogExtends st.messages (runLoop model env fuel st).2.messages ∧
      (WellLinked st.messages → WellLinked (runLoop model env fuel st).2.messages) := by
  intro fuel
  induction fuel with
  | zero =>
      intro st
      exact ⟨by simp [runLoop], by simp [runLoop], ⟨[], by simp [runLoop]⟩,
        fun h => h⟩
  | succ n ih =>
      intro st
      obtain ⟨g1, g2, g3, g4⟩ := iterationStep_state model env st
      cases hs : iterationStep model env st with
      | done s st2 =>
          rw [hs] at g1 g2 g3 g4
          simp only [runLoop, hs]
          dsimp only [StepResult.state] at g1 g2 g3 g4
          exact ⟨by omega, by omega, g3, g4⟩
      | next st2 =>
          rw [hs] at g1 g2 g3 g4
          simp only [runLoop, hs]
          dsimp only [StepResult.state] at g1 g2 g3 g4
          obtain ⟨i1, i2, i3, i4⟩ := ih st2
          exact ⟨by omega, by omega, logExtends_trans g3 i3, fun h => i4 (g4 h)⟩

/-- When every completion response requests a non-empty batch of tool calls
and every invocation returns normally, the loop consumes all its fuel,
returns the exhaustion sentinel, and issues exactly one completion call per
unit of fuel. -/
theorem runLoop_exhausts (model : String) (env : Env)
    (hc : ∀ i, (env.completions i).finish_reason = FinishReason.tool_calls ∧
      (env.completions i).message.tool_calls ≠ [])
    (ht : ∀ k, ∃ r e, env.toolResults k = ToolOutcome.ok r e) :
    ∀ (fuel : Nat) (st : LoopState),
      (runLoop model env fuel st).1 = exhaustedSentinel ∧
      (runLoop model env fuel st).2.completionCalls = st.completionCalls + fuel ∧
      (runLoop model env fuel st).2.completionRequests.length =
        st.completionRequests.length + fuel := by
  intro fuel
  induction fuel with
  | zero => intro st; exact ⟨rfl, by simp [runLoop], by simp [runLoop]⟩
  | succ n ih =>
      intro st
      obtain ⟨hfr, hne⟩ := hc st.completionCalls
      cases htc : (env.completions st.completionCalls).message.tool_calls with
      | nil => exact absurd htc hne
      | cons tc rest =>
          have hstep : iterationStep model env st =
              StepResult.next
                (runBatch env (afterCompletion model env st) (tc :: rest)).1 := by
            rw [iterationStep_eq, hfr, htc]
            exact batchStep_ok env (tc :: rest) _ (fun k _ => ht _)
          obtain ⟨c1, c2, _⟩ :=
            runBatch_counters env (tc :: rest) (afterCompletion model env st)
          simp only [runLoop, hstep]
          obtain ⟨i1, i2, i3⟩ :=
            ih ((runBatch env (afterCompletion model env st) (tc :: rest)).1)
          refine ⟨i1, ?_, ?_⟩
          · rw [i2, c1]
            show st.completionCalls + 1 + n = st.completionCalls + (n + 1)
            omega
          · rw [i3, c2]
            show (st.completionRequests ++ [_]).length + n =
              st.completionRequests.length + (n + 1)
            simp
            omega

/-- A completion response with `finish_reason = stop`, or one whose
`tool_calls` list is empty, ends the loop at once with the response
message's content. -/
theorem runLoop_final (model : String) (env : Env) (st : LoopState) (fuel : Nat)
    (h : (env.completions st.completionCalls).finish_reason = FinishReason.stop ∨
         (env.completions st.completionCalls).message.tool_calls = []) :
    (runLoop model env (fuel + 1) st).1 =
      (env.completions st.completionCalls).message.content ∧
    (runLoop model env (fuel + 1) st).2.completionCalls = st.completionCalls + 1 := by
  have hstep : iterationStep model env st =
      StepResult.done ((env.completions st.completionCalls).message.content)
        (afterCompletion model env st) := by
    rw [iterationStep_eq]
    rcases h with hs | he
    · rw [hs]
    · rw [he]
      cases hfr : (env.completions st.completionCalls).finish_reason <;> rfl
  simp [runLoop, hstep, afterCompletion]

/-- When the completion response at the current index carries a batch whose
invocation after `pre` raises, the loop stops with the error string, having
issued exactly one more completion call, and dispatches nothing past the
raising request. -/
theorem runLoop_abort (model : String) (env : Env) (st : LoopState) (fuel : Nat)
    (pre post : List ToolCallRequest) (tc : ToolCallRequest) (c m : String) (b : Bool)
    (hresp : env.completions st.completionCalls =
      ⟨FinishReason.tool_calls, ⟨c, pre ++ tc :: post⟩⟩)
    (hpre : ∀ k, k < pre.length →
      ∃ r e, env.toolResults (st.toolInvocations.length + k) = ToolOutcome.ok r e)
    (hexn : env.toolResults (st.toolInvocations.length + pre.length) =
      ToolOutcome.exn m b) :
    (runLoop model env (fuel + 1) st).1 = "Error executing " ++ tc.name ++ ": " ++ m ∧
    (runLoop model env (fuel + 1) st).2.completionCalls = st.completionCalls + 1 ∧
    (runLoop model env (fuel + 1) st).2.completionRequests.length =
      st.completionRequests.length + 1 ∧
    (runLoop model env (fuel + 1) st).2.toolInvocations.length =
      st.toolInvocations.length + pre.length + 1 := by
  have hfr : (env.completions st.completionCalls).finish_reason =
      FinishReason.tool_calls := by rw [hresp]
  have htc : (env.completions st.completionCalls).message.tool_calls =
      pre ++ tc :: post := by rw [hresp]
  have habort :=
    runBatch_abort env m b tc post pre (afterCompletion model env st) hpre hexn
  obtain ⟨hd, tl, hl⟩ : ∃ hd tl, pre ++ tc :: post = hd :: tl := by
    cases pre <;> exact ⟨_, _, rfl⟩
  have hstep : iterationStep model env st =
      StepResult.done ("Error executing " ++ tc.name ++ ": " ++ m)
        ((runBatch env (afterCompletion model env st) (pre ++ tc :: post)).1) := by
    have habort2 := habort.1
    rw [hl] at habort2
    rw [iterationStep_eq, hfr, htc, hl]
    exact batchStep_abort env (hd :: tl) _ _ habort2
  obtain ⟨c1, c2, _⟩ :=
    runBatch_counters env (pre ++ tc :: post) (afterCompletion model env st)
  simp only [runLoop, hstep]
  refine ⟨trivial, ?_, ?_, habort.2⟩
  · rw [c1]; simp [afterCompletion]
  · rw [c2]; simp [afterCompletion]

/-- A well-linked message log opens with the system message. -/
theorem wellLinked_head {l : List Message} (h : WellLinked l) :
    ∃ p, l[0]? = some (Message.system p) := by
  induction h with
  | base p u => exact ⟨p, rfl⟩
  | extend l c n r tc hl ih =>
      obtain ⟨p, hp⟩ := ih
      have hlt : 0 < l.length := by
        rcases l with _ | ⟨x, xs⟩
        · simp at hp
        · simp
      exact ⟨p, by rw [List.getElem?_append_left hlt]; exact hp⟩

/-- A well-linked message log satisfies the claim-level linkage property:
every tool-role message is immediately preceded by an assistant message
holding a request with the same id. -/
theorem wellLinked_toolMsgLinked {l : List Message} (h : WellLinked l) :
    ToolMsgLinked l := by
  induction h with
  | base p u =>
      constructor
      · intro n c tid hx
        simp at hx
      · intro i n c tid hx
        cases i with
        | zero => simp at hx
        | succ j =>
            rw [List.getElem?_eq_none
              (by simp only [List.length_cons, List.length_nil]; omega)] at hx
            cases hx
  | extend l c n r tc hl ih =>
      obtain ⟨ih1, ih2⟩ := ih
      constructor
      · intro n2 c2 tid hx
        obtain ⟨p, hp⟩ := wellLinked_head hl
        have hlt : 0 < l.length := by
          rcases l with _ | ⟨x, xs⟩
          · simp at hp
          · simp
        rw [List.getElem?_append_left hlt, hp] at hx
        cases hx
      · intro i n2 c2 tid hx
        by_cases h1 : i + 1 < l.length
        · rw [List.getElem?_append_left h1] at hx
          obtain ⟨ac, tcs, hasst, tc2, hmem, hid⟩ := ih2 i n2 c2 tid hx
          refine ⟨ac, tcs, ?_, tc2, hmem, hid⟩
          rw [List.getElem?_append_left (Nat.lt_of_succ_lt h1)]
          exact hasst
        · have hge := Nat.le_of_not_lt h1
          rw [List.getElem?_append_right hge] at hx
          cases hd : i + 1 - l.length with
          | zero =>
              rw [hd] at hx
              simp at hx
          | succ d2 =>
              cases d2 with
              | zero =>
                  rw [hd] at hx
                  simp at hx
                  obtain ⟨hn, hr, hid⟩ := hx
                  have hi : i = l.length := by omega
                  subst hi
                  refine ⟨c, [tc], ?_, tc, by simp, hid⟩
                  rw [List.getElem?_append_right (Nat.le_refl _)]
                  simp
              | succ k =>
                  rw [hd] at hx
                  rw [List.getElem?_eq_none
                    (by simp only [List.length_cons, List.length_nil]; omega)] at hx
                  cases hx

/-- A well-linked message log satisfies the claim-level answering property:
every assistant message carries exactly one request and is immediately
followed by the tool-role message answering it. -/
theorem wellLinked_assistantAnswered {l : List Message} (h : WellLinked l) :
    AssistantAnswered l := by
  induction h with
  | base p u =>
      intro i c tcs hx
      cases i with
      | zero => simp at hx
      | succ j =>
          cases j with
          | zero => simp at hx
          | succ k =>
              rw [List.getElem?_eq_none
                (by simp only [List.length_cons, List.length_nil]; omega)] at hx
              cases hx
  | extend l c n r tc hl ih =>
      intro i c2 tcs hx
      by_cases h1 : i < l.length
      · rw [List.getElem?_append_left h1] at hx
        obtain ⟨tc2, htcs, n2, r2, hnext⟩ := ih i c2 tcs hx
        have h2 : i + 1 < l.length := by
          by_contra hcon
          rw [List.getElem?_eq_none (Nat.le_of_not_lt hcon)] at hnext
          cases hnext
        refine ⟨tc2, htcs, n2, r2, ?_⟩
        rw [List.getElem?_append_left h2]
        exact hnext
      · have hge := Nat.le_of_not_lt h1
        rw [List.getElem?_append_right hge] at hx
        cases hd : i - l.length with
        | zero =>
            rw [hd] at hx
            simp at hx
            obtain ⟨hc, htcs⟩ := hx
            have hi : i = l.length := by omega
            subst hi
            refine ⟨tc, htcs.symm, n, r, ?_⟩
            rw [List.getElem?_append_right (by omega)]
            simp
        | succ d2 =>
            cases d2 with
            | zero =>
                rw [hd] at hx
                simp at hx
            | succ k =>
                rw [hd] at hx
                rw [List.getElem?_eq_none
                  (by simp only [List.length_cons, List.length_nil]; omega)] at hx
                cases hx

/-- One ollama dispatch never touches the recorded chat requests. -/
theorem oProcessToolCall_requests (env : OEnv) (st : OState) (tc : OllamaToolCall) :
    (oProcessToolCall env st tc).1.requests = st.requests := by
  unfold oProcessToolCall
  cases tc.arguments <;> cases env.toolResults st.toolInvocations.length <;> rfl

/-- Ollama batch processing never touches the recorded chat requests. -/
theorem oRunBatch_requests (env : OEnv) (tcs : List OllamaToolCall) :
    ∀ st : OState, (oRunBatch env st tcs).1.requests = st.requests := by
  induction tcs with
  | nil => intro st; rfl
  | cons tc rest ih =>
      intro st
      have h1 := oProcessToolCall_requests env st tc
      unfold oRunBatch
      cases hp : oProcessToolCall env st tc with
      | mk st2 r =>
        rw [hp] at h1
        cases r with
        | none => exact (ih st2).trans h1
        | some s => exact h1

/-- The state inside an ollama batch step is the state the batch produced. -/
theorem oBatchStep_state (env : OEnv) (st2 : OState) (batch : List OllamaToolCall) :
    (oBatchStep env st2 batch).state = (oRunBatch env st2 batch).1 := by
  unfold oBatchStep
  rcases oRunBatch env st2 batch with ⟨st3, r⟩
  cases r <;> rfl

/-- Every chat request recorded by one ollama iteration carries the
hardcoded model string `"llama3.1"`. -/
theorem oIterationStep_models (env : OEnv) (st : OState)
    (h : ∀ r, r ∈ st.requests → r.model = "llama3.1") :
    ∀ r, r ∈ (oIterationStep env st).state.requests → r.model = "llama3.1" := by
  have hstep : ∀ r, r ∈ (st.requests ++
      [({ model := "llama3.1", messages := st.messages,
          tools := (env.catalogs st.listToolsCalls).map toFunctionDecl } :
        OllamaRequest)]) → r.model = "llama3.1" := by
    intro r hr
    rw [List.mem_append] at hr
    rcases hr with hr | hr
    · exact h r hr
    · rw [List.mem_singleton] at hr
      rw [hr]
  cases hc : env.chats st.chatCalls with
  | requestError m =>
      simp only [oIterationStep, hc, OStepResult.state]
      exact hstep
  | ok msg =>
      cases htc : msg.tool_calls with
      | none =>
          simp only [oIterationStep, hc, htc, OStepResult.state]
          exact hstep
      | some lst =>
          cases lst with
          | nil =>
              simp only [oIterationStep, hc, htc, OStepResult.state]
              exact hstep
          | cons tc rest =>
              simp only [oIterationStep, hc, htc]
              rw [oBatchStep_state, oRunBatch_requests]
              exact hstep

/-- Every chat request recorded by the ollama loop carries the hardcoded
model string `"llama3.1"`. -/
theorem oRunLoop_models (env : OEnv) :
    ∀ (fuel : Nat) (st : OState),
      (∀ r, r ∈ st.requests → r.model = "llama3.1") →
      ∀ r, r ∈ (oRunLoop env fuel st).2.requests → r.model = "llama3.1" := by
  intro fuel
  induction fuel with
  | zero => intro st h; exact h
  | succ n ih =>
      intro st h
      have hstep := oIterationStep_models env st h
      cases hs : oIterationStep env st with
      | done s st2 =>
          rw [hs] at hstep
          simp only [oRunLoop, hs]
          exact hstep
      | next st2 =>
          rw [hs] at hstep
          simp only [oRunLoop, hs]
          exact ih st2 hstep

/-- C1 (counterexample): in `cexEnvC1` the only tool call of the batch
raises a non-transport tool-level failure (`transportBroken = false`), yet
`process_query` aborts at once with the `"Error executing ..."` string after
a single completion call and appends nothing to the conversation — so the
failure is neither wrapped into an error result folded into the transcript
nor does the loop continue, contradicting the claim as stated. -/
theorem claim_C1_counterexample :
    (processQuery "m" cexEnvC1 "q").1 = "Error executing t1: boom" ∧
    (processQuery "m" cexEnvC1 "q").2.completionCalls = 1 ∧
    (processQuery "m" cexEnvC1 "q").2.messages = (initState "q").messages := by
  refine ⟨?_, ?_, ?_⟩ <;> rfl

/-- C1 (amended): a tool-level failure that `call_tool` reports inside its
returned result is folded into the conversation as a tool-role message
carrying the result text, and the batch loop continues with the remaining
tool calls; an invocation that raises, by contrast — whether or not the
transport to the host is broken — makes `process_query` return the
`"Error executing ..."` string instead of folding the failure in. -/
theorem claim_C1_amended (env env2 : Env) (st st2 : LoopState)
    (tc tc2 : ToolCallRequest) (rest rest2 : List ToolCallRequest)
    (printed m : String) (b : Bool)
    (h1 : env.toolResults st.toolInvocations.length = ToolOutcome.ok printed true)
    (h2 : env2.toolResults st2.toolInvocations.length = ToolOutcome.exn m b) :
    ((processToolCall env st tc).2 = none ∧
     (processToolCall env st tc).1.messages = st.messages ++
       [Message.assistant "" [tc], Message.tool tc.name printed tc.id] ∧
     runBatch env st (tc :: rest) = runBatch env (processToolCall env st tc).1 rest) ∧
    (runBatch env2 st2 (tc2 :: rest2) =
      ((processToolCall env2 st2 tc2).1,
        some ("Error executing " ++ tc2.name ++ ": " ++ m))) := by
  constructor
  · have hchar := processToolCall_ok env st tc printed true h1
    refine ⟨?_, ?_, ?_⟩
    · rw [hchar]
    · rw [hchar]
    · conv_lhs => rw [runBatch, hchar]
      rw [hchar]
  · have hchar := processToolCall_exn env2 st2 tc2 m b h2
    conv_lhs => rw [runBatch, hchar]
    rw [hchar]

/-- C1 (witness): concrete instance of the amended claim at `wEnvC1a` and
`wEnvC1b`. -/
theorem claim_C1_witness :
    ((processToolCall wEnvC1a (initState "q") tcA).2 = none ∧
     (processToolCall wEnvC1a (initState "q") tcA).1.messages =
       (initState "q").messages ++
         [Message.assistant "" [tcA],
          Message.tool "t1" "tool reported failure" "c1"] ∧
     runBatch wEnvC1a (initState "q") (tcA :: [tcB]) =
       runBatch wEnvC1a (processToolCall wEnvC1a (initState "q") tcA).1 [tcB]) ∧
    (runBatch wEnvC1b (initState "q") (tcA :: []) =
      ((processToolCall wEnvC1b (initState "q") tcA).1,
        some "Error executing t1: boom")) :=
  claim_C1_amended wEnvC1a wEnvC1b (initState "q") (initState "q") tcA tcA
    [tcB] [] "tool reported failure" "boom" false rfl rfl

/-- C2 (counterexample): in `cexEnvC2` the completion response carries a
batch of two requests, but the first invocation raises, so the second
request is never handed to the tool invoker: the invocation trace holds a
single entry and the query returns the error string instead of finishing
the batch — contradicting the claim that every request of the batch is
invoked exactly once. -/
theorem claim_C2_counterexample :
    (processQuery "m" cexEnvC2 "q").2.toolInvocations = [⟨"t1", []⟩] ∧
    (processQuery "m" cexEnvC2 "q").1 = "Error executing t1: boom" := by
  refine ⟨?_, ?_⟩ <;> rfl

/-- C2 (amended): when no invocation of the batch raises, `process_query`
hands every request of the batch to the tool invoker exactly once, in the
order of the list, appending for each one an assistant message recording
the request followed by the tool-role message recording its result, and it
issues no completion-API call while the batch is being processed; a raising
invocation instead aborts the query, skipping the remaining requests. -/
theorem claim_C2_amended (env : Env) (st : LoopState) (tcs : List ToolCallRequest)
    (h : ∀ k, k < tcs.length →
      ∃ r e, env.toolResults (st.toolInvocations.length + k) = ToolOutcome.ok r e) :
    (runBatch env st tcs).2 = none ∧
    (runBatch env st tcs).1.toolInvocations =
      st.toolInvocations ++ tcs.map (fun tc => ⟨tc.name, parsedArgs env tc⟩) ∧
    (runBatch env st tcs).1.messages =
      st.messages ++ batchMessages env st.toolInvocations.length tcs ∧
    (runBatch env st tcs).1.completionCalls = st.completionCalls ∧
    (runBatch env st tcs).1.completionRequests = st.completionRequests := by
  obtain ⟨a1, a2, a3⟩ := runBatch_ok env tcs st h
  obtain ⟨b1, b2, _⟩ := runBatch_counters env tcs st
  exact ⟨a1, a2, a3, b1, b2⟩

/-- C2 (witness): concrete instance of the amended claim at `wEnvC2` with a
two-request batch, both invocations succeeding. -/
theorem claim_C2_witness :
    (runBatch wEnvC2 (initState "q") [tcA, tcB]).2 = none ∧
    (runBatch wEnvC2 (initState "q") [tcA, tcB]).1.toolInvocations =
      [⟨"t1", []⟩, ⟨"t2", []⟩] ∧
    (runBatch wEnvC2 (initState "q") [tcA, tcB]).1.messages =
      (initState "q").messages ++
        [Message.assistant "" [tcA], Message.tool "t1" "out" "c1",
         Message.assistant "" [tcB], Message.tool "t2" "out" "c2"] ∧
    (runBatch wEnvC2 (initState "q") [tcA, tcB]).1.completionCalls = 0 ∧
    (runBatch wEnvC2 (initState "q") [tcA, tcB]).1.completionRequests = [] :=
  claim_C2_amended wEnvC2 (initState "q") [tcA, tcB]
    (fun k hk => ⟨"out", false, rfl⟩)

/-- C3: the number of completion-API calls issued by `process_query` never
exceeds `max_iterations` — in general the loop adds at most one completion
call per unit of fuel, and from the fresh initial state both the call
counter and the recorded request trace stay within `maxIterations = 10`. -/
theorem claim_C3_budget (model q : String) (env : Env) (st : LoopState) (fuel : Nat) :
    (runLoop model env fuel st).2.completionCalls ≤ st.completionCalls + fuel ∧
    (processQuery model env q).2.completionCalls ≤ maxIterations ∧
    (processQuery model env q).2.completionRequests.length ≤ maxIterations := by
  obtain ⟨a, _, _, _⟩ := runLoop_state model env fuel st
  obtain ⟨b, c, _, _⟩ := runLoop_state model env maxIterations (initState q)
  refine ⟨a, ?_, ?_⟩
  · show (runLoop model env maxIterations (initState q)).2.completionCalls ≤
      maxIterations
    simpa [initState] using b
  · show (runLoop model env maxIterations (initState q)).2.completionRequests.length ≤
      maxIterations
    simpa [initState] using c

/-- C4: when every completion response requests tool calls (and invocations
return normally, so no terminal stop is ever reached), `process_query`
returns the exhaustion sentinel after issuing exactly `maxIterations`
completion calls; with a budget of 0 the loop returns the sentinel at once
from the initial state, which has issued no completion call. -/
theorem claim_C4_exhaustion (model q : String) (env : Env)
    (hc : ∀ i, (env.completions i).finish_reason = FinishReason.tool_calls ∧
      (env.completions i).message.tool_calls ≠ [])
    (ht : ∀ k, ∃ r e, env.toolResults k = ToolOutcome.ok r e) :
    (processQuery model env q).1 = exhaustedSentinel ∧
    (processQuery model env q).2.completionCalls = maxIterations ∧
    (processQuery model env q).2.completionRequests.length = maxIterations ∧
    runLoop model env 0 (initState q) = (exhaustedSentinel, initState q) ∧
    (initState q).completionCalls = 0 := by
  obtain ⟨a, b, c⟩ := runLoop_exhausts model env hc ht maxIterations (initState q)
  refine ⟨a, ?_, ?_, rfl, rfl⟩
  · show (runLoop model env maxIterations (initState q)).2.completionCalls =
      maxIterations
    rw [b]; simp [initState]
  · show (runLoop model env maxIterations (initState q)).2.completionRequests.length =
      maxIterations
    rw [c]; simp [initState]

/-- C4 (witness): concrete instance at `wEnvC4`, where every response
requests one tool call. -/
theorem claim_C4_witness :
    (processQuery "m" wEnvC4 "q").1 = exhaustedSentinel ∧
    (processQuery "m" wEnvC4 "q").2.completionCalls = maxIterations ∧
    (processQuery "m" wEnvC4 "q").2.completionRequests.length = maxIterations ∧
    runLoop "m" wEnvC4 0 (initState "q") = (exhaustedSentinel, initState "q") ∧
    (initState "q").completionCalls = 0 :=
  claim_C4_exhaustion "m" "q" wEnvC4
    (fun i => ⟨rfl, by simp [wEnvC4]⟩)
    (fun k => ⟨"out", false, rfl⟩)

/-- C5: in every final conversation of the deepseek `process_query`, each
tool-role message's `tool_call_id` equals the id of a request of the
immediately preceding assistant message, and every assistant message
carries exactly one request that is answered by exactly the one tool-role
message immediately following it (so every batch request is answered before
the next completion call, which only ever sees the finished log). -/
theorem claim_C5_linkage (model q : String) (env : Env) :
    ToolMsgLinked (processQuery model env q).2.messages ∧
    AssistantAnswered (processQuery model env q).2.messages := by
  have hw : WellLinked (initState q).messages := WellLinked.base systemPrompt q
  have h := (runLoop_state model env maxIterations (initState q)).2.2.2 hw
  exact ⟨wellLinked_toolMsgLinked h, wellLinked_assistantAnswered h⟩

/-- C6: a completion response with `finish_reason = stop` ends the query
with the response message's content, and so does a `tool_calls` response
that declares an empty `tool_calls` list (the malformed case is handled by
the same `else` branch of the source); the general statement is about any
loop state, and specializes to `process_query` on its first response. -/
theorem claim_C6_stop (model q : String) (env : Env) (st : LoopState) (fuel : Nat)
    (h : (env.completions st.completionCalls).finish_reason = FinishReason.stop ∨
         (env.completions st.completionCalls).message.tool_calls = [])
    (h0 : (env.completions 0).finish_reason = FinishReason.stop ∨
          (env.completions 0).message.tool_calls = []) :
    (runLoop model env (fuel + 1) st).1 =
      (env.completions st.completionCalls).message.content ∧
    (processQuery model env q).1 = (env.completions 0).message.content := by
  constructor
  · exact (runLoop_final model env st fuel h).1
  · exact (runLoop_final model env (initState q) 9 (by exact h0)).1

/-- C6 (witness): concrete instance at `wEnvC6`, whose first response stops
with content `"final answer"`. -/
theorem claim_C6_witness :
    (runLoop "m" wEnvC6 1 (initState "q")).1 = "final answer" ∧
    (processQuery "m" wEnvC6 "q").1 = "final answer" :=
  claim_C6_stop "m" "q" wEnvC6 (initState "q") 0 (Or.inl rfl) (Or.inl rfl)

/-- C7: when the raw argument text of a tool call fails to parse, the tool
is still invoked with the empty argument map substituted, the parse-error
notice is recorded, and the dispatch produces no early return (the query is
not aborted on account of the parse failure). -/
theorem claim_C7_parse_failure (env : Env) (st : LoopState) (tc : ToolCallRequest)
    (printed : String) (e : Bool)
    (hp : env.parseJson tc.arguments = none)
    (hr : env.toolResults st.toolInvocations.length = ToolOutcome.ok printed e) :
    (processToolCall env st tc).1.toolInvocations =
      st.toolInvocations ++ [⟨tc.name, []⟩] ∧
    (processToolCall env st tc).1.parseErrors =
      st.parseErrors ++ [parseErrorNotice] ∧
    (processToolCall env st tc).2 = none := by
  have hchar := processToolCall_ok env st tc printed e hr
  refine ⟨?_, ?_, ?_⟩
  · rw [hchar]
    simp [parsedArgs, hp]
  · rw [hchar]
    simp [recordParse, hp]
  · rw [hchar]

/-- C7 (witness): concrete instance at `wEnvC7`, where `json.loads` fails
on the raw arguments of `tcA`. -/
theorem claim_C7_witness :
    (processToolCall wEnvC7 (initState "q") tcA).1.toolInvocations =
      [⟨"t1", []⟩] ∧
    (processToolCall wEnvC7 (initState "q") tcA).1.parseErrors =
      [parseErrorNotice] ∧
    (processToolCall wEnvC7 (initState "q") tcA).2 = none :=
  claim_C7_parse_failure wEnvC7 (initState "q") tcA "out" false rfl rfl

/-- C8: when an invocation of the first completion response's batch raises
a transport-level failure (after the earlier requests of the batch returned
normally), `process_query` returns the explanatory error string at once:
exactly one completion call was issued in the whole query, and no request
beyond the raising one is dispatched. -/
theorem claim_C8_transport_abort (model q : String) (env : Env)
    (pre post : List ToolCallRequest) (tc : ToolCallRequest) (c m : String)
    (hresp : env.completions 0 =
      ⟨FinishReason.tool_calls, ⟨c, pre ++ tc :: post⟩⟩)
    (hpre : ∀ k, k < pre.length →
      ∃ r e, env.toolResults k = ToolOutcome.ok r e)
    (hexn : env.toolResults pre.length = ToolOutcome.exn m true) :
    (processQuery model env q).1 = "Error executing " ++ tc.name ++ ": " ++ m ∧
    (processQuery model env q).2.completionCalls = 1 ∧
    (processQuery model env q).2.completionRequests.length = 1 ∧
    (processQuery model env q).2.toolInvocations.length = pre.length + 1 := by
  obtain ⟨h1, h2, h3, h4⟩ := runLoop_abort model env (initState q) 9 pre post tc c m
    true (by exact hresp)
    (fun k hk => by simpa [initState] using hpre k hk)
    (by simpa [initState] using hexn)
  refine ⟨h1, h2, h3, ?_⟩
  show (runLoop model env (9 + 1) (initState q)).2.toolInvocations.length =
    pre.length + 1
  rw [h4]
  simp [initState]

/-- C8 (witness): concrete instance at `wEnvC8`: the second invocation of a
two-request batch raises a transport failure. -/
theorem claim_C8_witness :
    (processQuery "m" wEnvC8 "q").1 = "Error executing t2: host gone" ∧
    (processQuery "m" wEnvC8 "q").2.completionCalls = 1 ∧
    (processQuery "m" wEnvC8 "q").2.completionRequests.length = 1 ∧
    (processQuery "m" wEnvC8 "q").2.toolInvocations.length = 2 :=
  claim_C8_transport_abort "m" "q" wEnvC8 [tcA] [] tcB "" "host gone" rfl
    (fun k hk => by
      cases k with
      | zero => exact ⟨"fine", false, rfl⟩
      | succ k2 =>
          exact absurd hk
            (by simp only [List.length_cons, List.length_nil]; omega))
    rfl

/-- C9: within one `process_query` execution the message log is
append-only: the per-iteration catalog refresh leaves `messages` unchanged,
every run of the loop only ever extends the log it started from, and in
particular the final log of `process_query` extends the initial
system+user log. -/
theorem claim_C9_append_only (model q : String) (env : Env) (st : LoopState)
    (fuel : Nat) :
    (refreshCatalog env st).1.messages = st.messages ∧
    LogExtends st.messages (runLoop model env fuel st).2.messages ∧
    LogExtends (initState q).messages (processQuery model env q).2.messages := by
  refine ⟨rfl, (runLoop_state model env fuel st).2.2.1, ?_⟩
  exact (runLoop_state model env maxIterations (initState q)).2.2.1

/-- C10: the ollama variant hardcodes `model="llama3.1"` in every
`ollama.chat` call: two runs of `process_query` that differ only in the
configured MODEL value are identical, and every recorded completion request
carries the model string `"llama3.1"`. -/
theorem claim_C10_model_hardcoded (m1 m2 q : String) (env : OEnv) :
    oProcessQuery m1 env q = oProcessQuery m2 env q ∧
    ((oProcessQuery m1 env q).2.requests.all
      (fun r => r.model == "llama3.1")) = true := by
  refine ⟨rfl, ?_⟩
  rw [List.all_eq_true]
  intro r hr
  have hm := oRunLoop_models env maxIterations (oInitState q)
    (by intro r2 hr2; simp [oInitState] at hr2) r hr
  rw [hm]
  simp

end Mcp
